import Mathlib

/-!
# Verification of `darca-file-utils`

A shallow embedding of the `darca_file_utils` package
(`directory_utils.py`, `file_utils.py`, `yaml_utils.py`) and proofs of the
specification claims about it.

The host filesystem is modelled as an association list from path strings to
nodes (directories or files holding a byte list).  Host primitives
(`os.makedirs`, `os.rename`, `open`, `shutil.move`, `shutil.copy2`, the UTF-8
codec) are modelled explicitly; the repository's functions are translated
statement by statement from the Python source.  Mutating operations are
state-passing: they return the outcome (`Except Err Bool`, mirroring
`True` returns vs raised exceptions) together with the filesystem after the
call.
-/

set_option autoImplicit false
set_option linter.unusedVariables false

namespace Darca

/-! ## Filesystem model -/

/-- A filesystem node: a directory, or a regular file holding raw bytes
(each byte a `Nat < 256`). -/
inductive Node where
  | dir : Node
  | file : List Nat → Node
deriving DecidableEq

/-- Lookup in an association list of filesystem entries (first match wins). -/
def lookupEntries : List (String × Node) → String → Option Node
  | [], _ => none
  | (k, n) :: rest, p => if k = p then some n else lookupEntries rest p

/-- The modelled filesystem: a finite map from path strings to nodes,
represented as an association list where the first binding wins. -/
structure FS where
  entries : List (String × Node)
deriving DecidableEq

def FS.lookup (fs : FS) (p : String) : Option Node :=
  lookupEntries fs.entries p

/-- Insert/overwrite a binding (cons; `FS.lookup` takes the first match). -/
def FS.set (fs : FS) (p : String) (n : Node) : FS :=
  ⟨(p, n) :: fs.entries⟩

/-- Remove every binding for `p`. -/
def FS.erase (fs : FS) (p : String) : FS :=
  ⟨fs.entries.filter (fun e => decide (¬ e.1 = p))⟩

/-- Models `os.path.isdir`. -/
def FS.isDir (fs : FS) (p : String) : Bool :=
  decide (fs.lookup p = some Node.dir)

/-- Models `os.path.isfile`: true only for regular files, not directories. -/
def FS.isFile (fs : FS) (p : String) : Bool :=
  match fs.lookup p with
  | some (Node.file _) => true
  | _ => false

/-- Models `os.path.exists`. -/
def FS.exists (fs : FS) (p : String) : Bool :=
  decide (¬ fs.lookup p = none)

/-! ## UTF-8 codec (model of CPython's strict `utf-8` codec)

Python `str` payloads are modelled as lists of Unicode code points
(`Nat`), `bytes` payloads as lists of byte values. -/

/-- A Unicode scalar value: a code point below `0x110000` that is not a
surrogate.  `str.encode("utf-8")` succeeds exactly on strings of scalars. -/
def isScalar (c : Nat) : Bool :=
  decide (c < 0xD800) || (decide (0xE000 ≤ c) && decide (c < 0x110000))

/-- UTF-8 encoding of a single scalar value. -/
def utf8EncodeChar (c : Nat) : List Nat :=
  if c < 0x80 then [c]
  else if c < 0x800 then [0xC0 + c / 64, 0x80 + c % 64]
  else if c < 0x10000 then
    [0xE0 + c / 4096, 0x80 + c / 64 % 64, 0x80 + c % 64]
  else
    [0xF0 + c / 262144, 0x80 + c / 4096 % 64, 0x80 + c / 64 % 64,
     0x80 + c % 64]

/-- Models `str.encode("utf-8")`: fails (raises `UnicodeEncodeError`) iff the
string contains a non-scalar code point (e.g. a lone surrogate). -/
def utf8Encode (cs : List Nat) : Option (List Nat) :=
  if cs.all isScalar then some (cs.flatMap utf8EncodeChar) else none

/-- Is `b` a UTF-8 continuation byte (`0x80..0xBF`)? -/
def isCont (b : Nat) : Bool :=
  decide (0x80 ≤ b) && decide (b < 0xC0)

/-- One step of the strict UTF-8 decoder: decode the sequence starting at
`b0` (whose continuation bytes are taken from `rest`), returning the code
point and the remaining input.  Rejects truncated sequences, stray
continuation bytes, overlong forms, surrogates and values above `0x10FFFF`,
exactly as CPython's strict decoder does. -/
def utf8Step (b0 : Nat) (rest : List Nat) : Option (Nat × List Nat) :=
  if b0 < 0x80 then some (b0, rest)
  else if b0 < 0xC2 then none
  else if b0 < 0xE0 then
    match rest with
    | b1 :: rest2 =>
      if isCont b1 then some ((b0 - 0xC0) * 64 + (b1 - 0x80), rest2)
      else none
    | [] => none
  else if b0 < 0xF0 then
    match rest with
    | b1 :: b2 :: rest3 =>
      if (if b0 = 0xE0 then decide (0xA0 ≤ b1) && decide (b1 < 0xC0)
          else if b0 = 0xED then decide (0x80 ≤ b1) && decide (b1 < 0xA0)
          else isCont b1) && isCont b2 then
        some ((b0 - 0xE0) * 4096 + (b1 - 0x80) * 64 + (b2 - 0x80), rest3)
      else none
    | _ => none
  else if b0 < 0xF5 then
    match rest with
    | b1 :: b2 :: b3 :: rest4 =>
      if (if b0 = 0xF0 then decide (0x90 ≤ b1) && decide (b1 < 0xC0)
          else if b0 = 0xF4 then decide (0x80 ≤ b1) && decide (b1 < 0x90)
          else isCont b1) && isCont b2 && isCont b3 then
        some ((b0 - 0xF0) * 262144 + (b1 - 0x80) * 4096 +
          (b2 - 0x80) * 64 + (b3 - 0x80), rest4)
      else none
    | _ => none
  else none

/-- Fuel-driven loop of the decoder (the fuel only bounds the number of
decoded sequences; one byte of fuel per input byte always suffices since
every sequence consumes at least one byte). -/
def utf8DecodeAux : Nat → List Nat → Option (List Nat)
  | _, [] => some []
  | 0, _ :: _ => none
  | fuel + 1, b0 :: rest =>
    match utf8Step b0 rest with
    | none => none
    | some (c, rest2) => (utf8DecodeAux fuel rest2).map (fun cs => c :: cs)

/-- Models `bytes.decode("utf-8")` (strict). -/
def utf8Decode (bs : List Nat) : Option (List Nat) :=
  utf8DecodeAux bs.length bs

/-! ## Path helpers (models of `posixpath` functions) -/

/-- Core of `os.path.dirname` (POSIX): take everything up to the last `/`,
then strip trailing slashes unless the head is all slashes. -/
def dirnameL (cs : List Char) : List Char :=
  let revTail := cs.reverse.dropWhile (fun c => decide (¬ c = '/'))
  let head := revTail.reverse
  if head.all (fun c => decide (c = '/')) then head
  else (head.reverse.dropWhile (fun c => decide (c = '/'))).reverse

/-- Models `os.path.dirname`. -/
def dirname (p : String) : String := ⟨dirnameL p.data⟩

/-- Models `os.path.basename` (POSIX): everything after the last `/`. -/
def basename (p : String) : String :=
  ⟨(p.data.reverse.takeWhile (fun c => decide (¬ c = '/'))).reverse⟩

/-- Models `os.path.join a b` (POSIX, two arguments): `b` wins if absolute,
otherwise a single separator is inserted unless `a` is empty or already
ends with one. -/
def osJoin (a b : String) : String :=
  if b.data.head? = some '/' then b
  else if a = "" ∨ a.data.getLast? = some '/' then a ++ b
  else a ++ "/" ++ b

/-! ## Host mutation primitives -/

/-- Models `os.makedirs path`: fails (`FileExistsError`) if something already
exists at `path`, otherwise records `path` as a directory.  Intermediate
segments are not tracked by the flat filesystem model (no claim depends on
them). -/
def osMakedirs (fs : FS) (p : String) : Option FS :=
  if fs.lookup p = none then some (fs.set p Node.dir) else none

/-- Models opening a path for (truncating) write and writing `bs`: fails
(`IsADirectoryError`) if the path is an existing directory, otherwise the
previous content is fully replaced — never appended to. -/
def osOpenWrite (fs : FS) (p : String) (bs : List Nat) : Option FS :=
  if fs.isDir p then none else some (fs.set p (Node.file bs))

/-- Models `os.rename` (POSIX): fails if `src` is absent; renaming a regular
file onto an existing directory fails (`EISDIR`); renaming a directory onto
an existing path fails unless nothing is there (the empty-dst-dir success
case is irrelevant to the wrapped calls, which pre-check it). -/
def osRename (fs : FS) (src dst : String) : Option FS :=
  match fs.lookup src with
  | none => none
  | some Node.dir =>
    if fs.lookup dst = none then some ((fs.erase src).set dst Node.dir)
    else none
  | some (Node.file bs) =>
    if fs.isDir dst then none
    else some ((fs.erase src).set dst (Node.file bs))

/-- Models `shutil.move`: if `dst` is an existing directory the real
destination is `dst/basename src`, and the move refuses to overwrite an
existing real destination; otherwise it behaves like `os.rename`. -/
def shutilMove (fs : FS) (src dst : String) : Option FS :=
  if fs.isDir dst then
    let real := osJoin dst (basename src)
    if fs.lookup real = none then osRename fs src real else none
  else osRename fs src dst

/-- Models `shutil.copy2 src dst` for a regular-file `src`: if `dst` is an
existing directory the copy lands at `dst/basename src`; copying onto an
existing directory fails (`IsADirectoryError`); existing files are
overwritten. -/
def shutilCopy2 (fs : FS) (src dst : String) : Option FS :=
  match fs.lookup src with
  | some (Node.file bs) =>
    let real := if fs.isDir dst then osJoin dst (basename src) else dst
    if fs.isDir real then none else some (fs.set real (Node.file bs))
  | _ => none

/-! ## Errors and payloads -/

/-- A raised exception: `FileUtilsException` / `DirectoryUtilsException`
carrying their `error_code`, or a raw `UnicodeEncodeError`/`UnicodeDecodeError`
escaping from content normalisation (which the source performs outside its
`try` block). -/
inductive Err where
  | fileUtils : String → Err
  | directoryUtils : String → Err
  | unicodeError : Err
deriving DecidableEq

/-- A `str` (list of code points) or `bytes` (list of byte values) payload. -/
inductive Content where
  | str : List Nat → Content
  | bytes : List Nat → Content
deriving DecidableEq

/-! ## `DirectoryUtils` (directory_utils.py) -/

/-- `DirectoryUtils.directory_exist`: `os.path.isdir`. -/
def directory_exist (fs : FS) (path : String) : Bool :=
  fs.isDir path

/-- `FileUtils.file_exist`: `os.path.isfile`. -/
def file_exist (fs : FS) (path : String) : Bool :=
  fs.isFile path

/-- `DirectoryUtils.create_directory`.  If the directory already exists it
returns `True` immediately (the `permissions` and `user` arguments are not
even inspected).  Otherwise `os.makedirs`, then optional chmod/chown —
permission and ownership bits are metadata the model does not track, so
those two calls are modelled as no-ops; a `makedirs` failure raises
`DIRECTORY_CREATION_ERROR`. -/
def create_directory (fs : FS) (path : String) (permissions : Option Nat)
    (user : Option String) : Except Err Bool × FS :=
  if directory_exist fs path then (Except.ok true, fs)
  else
    match osMakedirs fs path with
    | none => (Except.error (Err.directoryUtils "DIRECTORY_CREATION_ERROR"), fs)
    | some fs1 => (Except.ok true, fs1)

/-- `DirectoryUtils.rename_directory`: not-found guard on `src`, then
already-exists guard on `dst`, then `os.rename`. -/
def rename_directory (fs : FS) (src dst : String) : Except Err Bool × FS :=
  if ¬ directory_exist fs src then
    (Except.error (Err.directoryUtils "DIRECTORY_NOT_FOUND"), fs)
  else if directory_exist fs dst then
    (Except.error (Err.directoryUtils "DIRECTORY_ALREADY_EXISTS"), fs)
  else
    match osRename fs src dst with
    | none => (Except.error (Err.directoryUtils "DIRECTORY_RENAME_ERROR"), fs)
    | some fs1 => (Except.ok true, fs1)

/-- `DirectoryUtils.move_directory`: not-found guard on `src` only, then
`shutil.move`; any failure of the move primitive is wrapped as
`DIRECTORY_MOVE_ERROR`. -/
def move_directory (fs : FS) (src dst : String) : Except Err Bool × FS :=
  if ¬ directory_exist fs src then
    (Except.error (Err.directoryUtils "DIRECTORY_NOT_FOUND"), fs)
  else
    match shutilMove fs src dst with
    | none => (Except.error (Err.directoryUtils "DIRECTORY_MOVE_ERROR"), fs)
    | some fs1 => (Except.ok true, fs1)

/-! ## `FileUtils` (file_utils.py) -/

/-- The `ensure parent directory exists` block of `write_file`: if the
parent (per `os.path.dirname`) is non-empty and absent, call
`create_directory`; a falsy return raises `DIRECTORY_CREATION_FAILED`, and
a raised `DirectoryUtilsException` propagates untouched. -/
def ensureParent (fs : FS) (file_path : String) (permissions : Option Nat)
    (user : Option String) : Except Err Unit × FS :=
  if dirname file_path = "" then (Except.ok (), fs)
  else if directory_exist fs (dirname file_path) then (Except.ok (), fs)
  else
    match create_directory fs (dirname file_path) permissions user with
    | (Except.ok true, fs1) => (Except.ok (), fs1)
    | (Except.ok false, fs1) =>
      (Except.error (Err.fileUtils "DIRECTORY_CREATION_FAILED"), fs1)
    | (Except.error e, fs1) => (Except.error e, fs1)

/-- The `normalise content & pick mode` block of `write_file`, performed
*outside* the `try`: binary mode UTF-8-encodes a `str` payload, text mode
UTF-8-decodes a `bytes` payload; codec failures escape as raw unicode
errors. -/
def normalizeContent (content : Content) (binary : Bool) :
    Except Err Content :=
  match binary, content with
  | true, Content.str cs =>
    match utf8Encode cs with
    | some bs => Except.ok (Content.bytes bs)
    | none => Except.error Err.unicodeError
  | true, Content.bytes bs => Except.ok (Content.bytes bs)
  | false, Content.bytes bs =>
    match utf8Decode bs with
    | some cs => Except.ok (Content.str cs)
    | none => Except.error Err.unicodeError
  | false, Content.str cs => Except.ok (Content.str cs)

/-- The bytes the write handle puts on disk for normalised content: raw for
a binary handle, the UTF-8 encoding of the string for a text handle (the
text handle's encoder, modelled as UTF-8, can itself fail on a lone
surrogate — inside the `try`). -/
def contentBytes (c : Content) : Option (List Nat) :=
  match c with
  | Content.bytes bs => some bs
  | Content.str cs => utf8Encode cs

/-- `FileUtils.write_file`: ensure the parent directory, normalise the
payload to the chosen mode, then open-truncate-write (failures inside the
`try` → `FILE_WRITE_ERROR`); the trailing chmod/chown are metadata no-ops
as in `create_directory`. -/
def write_file (fs : FS) (file_path : String) (content : Content)
    (binary : Bool) (permissions : Option Nat) (user : Option String) :
    Except Err Bool × FS :=
  match ensureParent fs file_path permissions user with
  | (Except.error e, fs1) => (Except.error e, fs1)
  | (Except.ok _, fs1) =>
    match normalizeContent content binary with
    | Except.error e => (Except.error e, fs1)
    | Except.ok c =>
      match contentBytes c with
      | none => (Except.error (Err.fileUtils "FILE_WRITE_ERROR"), fs1)
      | some bs =>
        match osOpenWrite fs1 file_path bs with
        | none => (Except.error (Err.fileUtils "FILE_WRITE_ERROR"), fs1)
        | some fs2 => (Except.ok true, fs2)

/-- `FileUtils.read_file`: not-found guard, then read; text mode decodes as
UTF-8 (decode failure → `FILE_READ_ERROR`), binary mode returns the raw
bytes. -/
def read_file (fs : FS) (file_path : String) (binary : Bool) :
    Except Err Content :=
  if ¬ file_exist fs file_path then
    Except.error (Err.fileUtils "FILE_NOT_FOUND")
  else
    match fs.lookup file_path with
    | some (Node.file bs) =>
      if binary then Except.ok (Content.bytes bs)
      else
        match utf8Decode bs with
        | some cs => Except.ok (Content.str cs)
        | none => Except.error (Err.fileUtils "FILE_READ_ERROR")
    | _ => Except.error (Err.fileUtils "FILE_READ_ERROR")

/-- `FileUtils.rename_file`: not-found guard on `src`, already-exists guard
on `dst` (via `file_exist`, so a directory at `dst` does not trigger it),
then `os.rename` → `FILE_RENAME_ERROR` on failure. -/
def rename_file (fs : FS) (src dst : String) : Except Err Bool × FS :=
  if ¬ file_exist fs src then
    (Except.error (Err.fileUtils "FILE_NOT_FOUND"), fs)
  else if file_exist fs dst then
    (Except.error (Err.fileUtils "FILE_ALREADY_EXISTS"), fs)
  else
    match osRename fs src dst with
    | none => (Except.error (Err.fileUtils "FILE_RENAME_ERROR"), fs)
    | some fs1 => (Except.ok true, fs1)

/-- `FileUtils.move_file`: not-found guard on `src` only, then
`shutil.move` → `FILE_MOVE_ERROR` on failure. -/
def move_file (fs : FS) (src dst : String) : Except Err Bool × FS :=
  if ¬ file_exist fs src then
    (Except.error (Err.fileUtils "FILE_NOT_FOUND"), fs)
  else
    match shutilMove fs src dst with
    | none => (Except.error (Err.fileUtils "FILE_MOVE_ERROR"), fs)
    | some fs1 => (Except.ok true, fs1)

/-- `FileUtils.copy_file`: not-found guard on `src`, already-exists guard on
`dst` (again via `file_exist`), then `shutil.copy2` → `FILE_COPY_ERROR`. -/
def copy_file (fs : FS) (src dst : String) : Except Err Bool × FS :=
  if ¬ file_exist fs src then
    (Except.error (Err.fileUtils "FILE_NOT_FOUND"), fs)
  else if file_exist fs dst then
    (Except.error (Err.fileUtils "FILE_ALREADY_EXISTS"), fs)
  else
    match shutilCopy2 fs src dst with
    | none => (Except.error (Err.fileUtils "FILE_COPY_ERROR"), fs)
    | some fs1 => (Except.ok true, fs1)

/-! ## Directory trees and `list_directory`

For the recursive-listing claim the subtree rooted at the listed path is
modelled structurally: the flat path-keyed map above cannot express
`os.walk`'s traversal order. -/

/-- A directory subtree: the names of the regular files directly inside it
and the named subdirectories, both in `os.listdir` enumeration order. -/
inductive DirTree where
  | node : List String → List (String × DirTree) → DirTree

def DirTree.files : DirTree → List String
  | DirTree.node fls _ => fls

def DirTree.subs : DirTree → List (String × DirTree)
  | DirTree.node _ sbs => sbs

mutual

/-- Models `os.walk root` (top-down): yield `(root, dirnames, filenames)`,
then walk each subdirectory under `os.path.join root name`. -/
def walkT (root : String) : DirTree → List (String × List String × List String)
  | DirTree.node fls sbs => (root, sbs.map Prod.fst, fls) :: walkL root sbs

def walkL (root : String) :
    List (String × DirTree) → List (String × List String × List String)
  | [] => []
  | (name, t) :: rest => walkT (osJoin root name) t ++ walkL root rest

end

/-- Split a character list at every `/` (componentwise view of a path, as
`posixpath` takes it). -/
def splitSlash : List Char → List (List Char)
  | [] => [[]]
  | c :: cs =>
    if c = '/' then [] :: splitSlash cs
    else
      match splitSlash cs with
      | [] => [[c]]
      | p :: ps => (c :: p) :: ps

/-- Length of the common prefix of two component lists. -/
def cplLen : List (List Char) → List (List Char) → Nat
  | a :: as, b :: bs => if a = b then cplLen as bs + 1 else 0
  | _, _ => 0

/-- Join components with `/`. -/
def intercalateSlash : List (List Char) → List Char
  | [] => []
  | [x] => x
  | x :: y :: ys => x ++ '/' :: intercalateSlash (y :: ys)

/-- Models `os.path.relpath path start` (POSIX): componentwise common prefix,
then `..` segments for what remains of `start` followed by the remainder of
`path`.  (`posixpath.relpath` first makes both arguments absolute; that
shared absolute prefix cancels inside the common-prefix computation, so it
is dropped here.) -/
def relParts (path start : String) : List (List Char) :=
  List.replicate ((splitSlash start.data).length -
      cplLen (splitSlash path.data) (splitSlash start.data)) ['.', '.'] ++
    (splitSlash path.data).drop
      (cplLen (splitSlash path.data) (splitSlash start.data))

/-- Assemble the relative path from its components (`.` when empty). -/
def relpath (path start : String) : String :=
  if relParts path start = [] then "."
  else ⟨intercalateSlash (relParts path start)⟩

/-- `DirectoryUtils.list_directory`.  The directory at `path` is given as an
optional subtree (`none` when `path` is not a directory, which raises
`DIRECTORY_NOT_FOUND`).  Non-recursive mode returns the immediate entry
names (`os.listdir`); recursive mode is the source's `os.walk` loop: for
every yielded `(root, _, files)` triple and file name it collects
`os.path.relpath (os.path.join root file) path`. -/
def list_directory (tree : Option DirTree) (path : String) (recursive : Bool) :
    Except Err (List String) :=
  match tree with
  | none => Except.error (Err.directoryUtils "DIRECTORY_NOT_FOUND")
  | some t =>
    if ¬ recursive then Except.ok (t.files ++ t.subs.map Prod.fst)
    else
      Except.ok ((walkT path t).flatMap
        (fun e => e.2.2.map (fun f => relpath (osJoin e.1 f) path)))

mutual

/-- Specification view of recursive listing: the path of every regular file
in the subtree, relative to the root, one path component per directory
level, joined with the separator — and nothing for the directories
themselves. -/
def relFilesT : DirTree → List String
  | DirTree.node fls sbs => fls ++ relFilesL sbs

def relFilesL : List (String × DirTree) → List String
  | [] => []
  | (name, t) :: rest =>
    (relFilesT t).map (fun r => name ++ "/" ++ r) ++ relFilesL rest

end

/-- Fold `os.path.join` over a component list (the successive walk roots). -/
def joinComps (p : String) (comps : List String) : String :=
  comps.foldl osJoin p

/-- Prepend path components to a relative path, one separator per level. -/
def preJoin (comps : List String) (r : String) : String :=
  match comps with
  | [] => r
  | c :: cs => c ++ "/" ++ preJoin cs r

/-- The file paths the recursive branch of `list_directory` collects from a
walk of `t` rooted at `root`, relative to `top`. -/
def collectT (top root : String) (t : DirTree) : List String :=
  (walkT root t).flatMap
    (fun e => e.2.2.map (fun f => relpath (osJoin e.1 f) top))

/-- `collectT` over a subdirectory list. -/
def collectL (top root : String) (l : List (String × DirTree)) : List String :=
  (walkL root l).flatMap
    (fun e => e.2.2.map (fun f => relpath (osJoin e.1 f) top))

/-- A usable filesystem entry name: nonempty and free of the separator. -/
def goodName (s : String) : Bool :=
  decide (¬ s = "") && s.data.all (fun c => decide (¬ c = '/'))

mutual

/-- All names in the subtree are usable entry names. -/
def goodTreeT : DirTree → Bool
  | DirTree.node fls sbs => fls.all goodName && goodTreeL sbs

def goodTreeL : List (String × DirTree) → Bool
  | [] => true
  | (name, t) :: rest => goodName name && goodTreeT t && goodTreeL rest

end

/-! ## YAML values -/

/-- The values `YamlUtils` round-trips: null, booleans, integers, strings,
sequences and (nested) mappings with string keys.  (Floating-point numbers
are outside the model.) -/
inductive Value where
  | vnull : Value
  | vbool : Bool → Value
  | vint : Int → Value
  | vstr : String → Value
  | vseq : List Value → Value
  | vmap : List (String × Value) → Value

/-- Python's `data is None` test on a loaded document. -/
def isNullV : Value → Bool
  | Value.vnull => true
  | _ => false

/-! ### Model of `yaml.safe_dump(data, default_flow_style=False)` -/

/-- Words the YAML 1.1 resolver treats as null. -/
def nullWords : List String := ["null", "Null", "NULL", "~"]

/-- Words the YAML 1.1 resolver treats as true. -/
def trueWords : List String :=
  ["true", "True", "TRUE", "yes", "Yes", "YES", "on", "On", "ON"]

/-- Words the YAML 1.1 resolver treats as false. -/
def falseWords : List String :=
  ["false", "False", "FALSE", "no", "No", "NO", "off", "Off", "OFF"]

def isDigitCh (c : Char) : Bool := decide ('0' ≤ c) && decide (c ≤ '9')

/-- Does the character list spell a decimal integer literal? -/
def intLitChars : List Char → Bool
  | [] => false
  | '-' :: cs => decide (¬ cs = []) && cs.all isDigitCh
  | cs => cs.all isDigitCh

/-- Characters a string may consist of for the emitter to leave it plain
(unquoted).  Conservative subset of PyYAML's plain-scalar analysis. -/
def plainCh (c : Char) : Bool :=
  c.isAlpha || isDigitCh c ||
    decide (c = ' ') || decide (c = '_') || decide (c = '.') ||
    decide (c = '/') || decide (c = '-')

/-- May string `s` be emitted as a plain scalar?  It must be nonempty, made
of harmless characters, not start or end with a space, not start with `-`,
and not resolve to null/bool/int. -/
def plainOk (s : String) : Bool :=
  decide (¬ s = "") && s.data.all plainCh &&
    decide (¬ s.data.head? = some ' ') &&
    decide (¬ s.data.getLast? = some ' ') &&
    decide (¬ s.data.head? = some '-') &&
    !(nullWords.contains s) && !(trueWords.contains s) &&
    !(falseWords.contains s) && !(intLitChars s.data)

/-- Double every single quote (YAML single-quoted escaping). -/
def escSingle : List Char → List Char
  | [] => []
  | '\'' :: cs => '\'' :: '\'' :: escSingle cs
  | c :: cs => c :: escSingle cs

/-- Render a string scalar: plain when safe, single-quoted otherwise. -/
def renderStr (s : String) : String :=
  if plainOk s then s else "'" ++ ⟨escSingle s.data⟩ ++ "'"

/-- Render a value that fits on one line (scalars, plus the flow forms of
empty containers); `none` for nonempty containers. -/
def renderScalar : Value → Option String
  | Value.vnull => some "null"
  | Value.vbool b => some (if b then "true" else "false")
  | Value.vint n => some (toString n)
  | Value.vstr s => some (renderStr s)
  | Value.vseq [] => some "[]"
  | Value.vmap [] => some "\x7b\x7d"
  | _ => none

/-- `n` spaces. -/
def sp (n : Nat) : String := ⟨List.replicate n ' '⟩

/-- Replace the first line's leading `i + 2` spaces with `i` spaces and a
dash (how the emitter attaches a block item to its `- `). -/
def mergeDash (i : Nat) : List String → List String
  | [] => []
  | l :: ls => (sp i ++ "- " ++ l.drop (i + 2)) :: ls

mutual

/-- Block-style lines of a mapping body at indent `i`. -/
def dumpMapB (i : Nat) : List (String × Value) → List String
  | [] => []
  | (k, v) :: rest => dumpPair i k v ++ dumpMapB i rest

/-- Lines of one `key: value` entry at indent `i`.  Nonempty mappings nest
two deeper; nonempty sequences are indentless (PyYAML default). -/
def dumpPair (i : Nat) (k : String) (v : Value) : List String :=
  match renderScalar v with
  | some t => [sp i ++ renderStr k ++ ": " ++ t]
  | none =>
    match v with
    | Value.vmap kvs => (sp i ++ renderStr k ++ ":") :: dumpMapB (i + 2) kvs
    | Value.vseq xs => (sp i ++ renderStr k ++ ":") :: dumpSeqB i xs
    | _ => []

/-- Lines of a block sequence at indent `i`. -/
def dumpSeqB (i : Nat) : List Value → List String
  | [] => []
  | v :: rest => dumpItem i v ++ dumpSeqB i rest

/-- Lines of one `- item` at indent `i`. -/
def dumpItem (i : Nat) (v : Value) : List String :=
  match renderScalar v with
  | some t => [sp i ++ "- " ++ t]
  | none =>
    match v with
    | Value.vmap kvs => mergeDash i (dumpMapB (i + 2) kvs)
    | Value.vseq xs => mergeDash i (dumpSeqB (i + 2) xs)
    | _ => []

end

/-- Each line followed by a newline. -/
def unlinesL : List (List Char) → List Char
  | [] => []
  | l :: ls => l ++ '\n' :: unlinesL ls

def unlines (ls : List String) : String := ⟨unlinesL (ls.map String.data)⟩

/-- Models `yaml.safe_dump(data, default_flow_style=False)` on a mapping:
block-style `key: value` lines; the empty mapping stays flow (`\x7b\x7d`). -/
def safeDump (data : List (String × Value)) : String :=
  match data with
  | [] => "\x7b\x7d\n"
  | _ => unlines (dumpMapB 0 data)

/-! ### Model of `yaml.safe_load` on the block subset -/

/-- A parsed physical line: indent width and remaining text. -/
structure YLine where
  indent : Nat
  text : String
deriving DecidableEq

def countIndent : List Char → Nat
  | ' ' :: cs => countIndent cs + 1
  | _ => 0

/-- Split a document into nonempty physical lines. -/
def toLines (s : String) : List YLine :=
  (splitNl s.data).filterMap fun l =>
    if l = [] then none
    else some ⟨countIndent l, ⟨l.drop (countIndent l)⟩⟩
where
  splitNl : List Char → List (List Char)
    | [] => [[]]
    | c :: cs =>
      if c = '\n' then [] :: splitNl cs
      else
        match splitNl cs with
        | [] => [[c]]
        | p :: ps => (c :: p) :: ps

/-- Parse the digits of a decimal literal. -/
def digitsVal : List Char → Nat
  | [] => 0
  | c :: cs => digitsValAux (c :: cs) 0
where
  digitsValAux : List Char → Nat → Nat
    | [], acc => acc
    | c :: cs, acc => digitsValAux cs (acc * 10 + (c.toNat - 48))

/-- Value of an integer literal (sign handled). -/
def intLitVal (cs : List Char) : Int :=
  match cs with
  | '-' :: rest => -(digitsVal rest : Int)
  | _ => (digitsVal cs : Int)

/-- Undo single-quote doubling. -/
def unescSingle : List Char → List Char
  | [] => []
  | '\'' :: '\'' :: cs => '\'' :: unescSingle cs
  | c :: cs => c :: unescSingle cs

/-- Is the text a complete single-quoted scalar? -/
def isQuoted (cs : List Char) : Bool :=
  match cs with
  | '\'' :: rest =>
    match rest.getLast? with
    | some '\'' => decide (¬ rest = [])
    | _ => false
  | _ => false

/-- Resolve a scalar the way PyYAML's `SafeLoader` resolver does on this
subset: null/bool words, integer literals, quoted strings, plain strings. -/
def parseScalar (s : String) : Value :=
  if nullWords.contains s then Value.vnull
  else if trueWords.contains s then Value.vbool true
  else if falseWords.contains s then Value.vbool false
  else if intLitChars s.data then Value.vint (intLitVal s.data)
  else if isQuoted s.data then
    Value.vstr ⟨unescSingle (s.data.drop 1).dropLast⟩
  else if s = "[]" then Value.vseq []
  else if s = "\x7b\x7d" then Value.vmap []
  else Value.vstr s

/-- Split `key: value` at the first unquoted `: ` (or trailing `:`), with a
single-quoted key consumed first when present.  Returns the key text and
the value text (`none` when the line ends at `:`). -/
def splitKey (cs : List Char) : Option (String × Option String) :=
  match cs with
  | '\'' :: rest => scanQuoted rest []
  | _ => scanPlain cs []
where
  scanPlain : List Char → List Char → Option (String × Option String)
    | [], _ => none
    | ':' :: [], acc => some (⟨acc.reverse⟩, none)
    | ':' :: ' ' :: rest, acc => some (⟨acc.reverse⟩, some ⟨rest⟩)
    | c :: rest, acc => scanPlain rest (c :: acc)
  scanQuoted : List Char → List Char → Option (String × Option String)
    | [], _ => none
    | '\'' :: '\'' :: rest, acc => scanQuoted rest ('\'' :: acc)
    | '\'' :: rest, acc =>
      match rest with
      | ':' :: [] => some (⟨acc.reverse⟩, none)
      | ':' :: ' ' :: rest2 => some (⟨acc.reverse⟩, some ⟨rest2⟩)
      | _ => none
    | c :: rest, acc => scanQuoted rest (c :: acc)

/-- Does this line open a sequence item? -/
def isDashLine (t : String) : Bool :=
  decide (t = "-") || decide (t.data.take 2 = ['-', ' '])

mutual

/-- Parse a block node starting at the first line (fuel-bounded recursive
descent over the emitted subset). -/
def parseBlock (fuel : Nat) (i : Nat) (ls : List YLine) :
    Option (Value × List YLine) :=
  match fuel with
  | 0 => none
  | fuel + 1 =>
    match ls with
    | [] => none
    | l :: _ =>
      if l.indent = i ∧ isDashLine l.text then
        match parseSeqItems fuel i ls with
        | some (xs, rem) => some (Value.vseq xs, rem)
        | none => none
      else if l.indent = i then
        match parseMapEntries fuel i ls with
        | some (kvs, rem) => some (Value.vmap kvs, rem)
        | none => none
      else none

/-- Parse successive `key: …` entries at indent `i`. -/
def parseMapEntries (fuel : Nat) (i : Nat) (ls : List YLine) :
    Option (List (String × Value) × List YLine) :=
  match fuel with
  | 0 => none
  | fuel + 1 =>
    match ls with
    | [] => some ([], [])
    | l :: rest =>
      if ¬ l.indent = i then some ([], ls)
      else if isDashLine l.text then none
      else
        match splitKey l.text.data with
        | none => none
        | some (k, some vtext) =>
          match parseMapEntries fuel i rest with
          | some (kvs, rem) => some ((k, parseScalar vtext) :: kvs, rem)
          | none => none
        | some (k, none) =>
          match rest with
          | [] => some ([(k, Value.vnull)], [])
          | l2 :: _ =>
            if l2.indent = i ∧ isDashLine l2.text then
              match parseSeqItems fuel i rest with
              | some (xs, rem) =>
                match parseMapEntries fuel i rem with
                | some (kvs, rem2) =>
                  some ((k, Value.vseq xs) :: kvs, rem2)
                | none => none
              | none => none
            else if i < l2.indent then
              match parseBlock fuel l2.indent rest with
              | some (v, rem) =>
                match parseMapEntries fuel i rem with
                | some (kvs, rem2) => some ((k, v) :: kvs, rem2)
                | none => none
              | none => none
            else
              match parseMapEntries fuel i rest with
              | some (kvs, rem) => some ((k, Value.vnull) :: kvs, rem)
              | none => none

/-- Parse successive `- …` items at indent `i`. -/
def parseSeqItems (fuel : Nat) (i : Nat) (ls : List YLine) :
    Option (List Value × List YLine) :=
  match fuel with
  | 0 => none
  | fuel + 1 =>
    match ls with
    | [] => some ([], [])
    | l :: rest =>
      if ¬ (l.indent = i ∧ isDashLine l.text) then some ([], ls)
      else
        let item : String := ⟨l.text.data.drop 2⟩
        if l.text = "-" then
          match parseSeqItems fuel i rest with
          | some (xs, rem) => some (Value.vnull :: xs, rem)
          | none => none
        else if isDashLine item ||
            (decide (¬ (isQuoted item.data)) &&
              decide (¬ (splitKey item.data = none))) then
          match parseBlock fuel (i + 2) (⟨i + 2, item⟩ :: rest) with
          | some (v, rem) =>
            match parseSeqItems fuel i rem with
            | some (xs, rem2) => some (v :: xs, rem2)
            | none => none
          | none => none
        else
          match parseSeqItems fuel i rest with
          | some (xs, rem) => some (parseScalar item :: xs, rem)
          | none => none

end

/-- Models `yaml.safe_load` on the block subset the emitter produces.  An
empty document resolves to `None` (here `vnull`); a single flow line gives
the empty containers; otherwise block parsing from column 0 must consume
every line. -/
def safeLoad (s : String) : Option Value :=
  match toLines s with
  | [] => some Value.vnull
  | [l] =>
    if l.indent = 0 ∧ (l.text = "\x7b\x7d" ∨ l.text = "[]" ∨
        ¬ (splitKey l.text.data).isSome) then
      some (parseScalar l.text)
    else
      match parseBlock (s.data.length + 2) 0 [l] with
      | some (v, []) => some v
      | _ => none
  | ls =>
    match parseBlock (s.data.length + 2) 0 ls with
    | some (v, []) => some v
    | _ => none

/-! ## `YamlUtils` (yaml_utils.py) -/

def strToCodes (s : String) : List Nat := s.data.map Char.toNat

def codesToStr (cs : List Nat) : String := ⟨cs.map Char.ofNat⟩

/-- `YamlUtils.load_yaml_file`.  Faithful to the source: the call to
`FileUtils.read_file` is *not* inside a `try`, so a read failure (including
`FILE_NOT_FOUND`) propagates; empty content short-circuits to the empty
mapping (`if not content`); only the `yaml.safe_load` call is guarded, its
failure and a `None` document both collapsing to the empty mapping. -/
def load_yaml_file (fs : FS) (file_path : String) : Except Err Value :=
  match read_file fs file_path false with
  | Except.error e => Except.error e
  | Except.ok (Content.bytes _) => Except.ok (Value.vmap [])
  | Except.ok (Content.str cs) =>
    if cs = [] then Except.ok (Value.vmap [])
    else
      match safeLoad (codesToStr cs) with
      | none => Except.ok (Value.vmap [])
      | some v =>
        Except.ok (if isNullV v then Value.vmap [] else v)

/-- `YamlUtils.write_yaml_file`.  `yaml.safe_dump` is modelled total (every
`Value` constructor is serialisable, so the source's serialisation `except`
branch cannot fire on this payload type); the result is written through
`FileUtils.write_file` in text mode, and a falsy return from it takes the
`return False` else-branch. -/
def write_yaml_file (fs : FS) (file_path : String)
    (data : List (String × Value)) : Except Err Bool × FS :=
  match write_file fs file_path (Content.str (strToCodes (safeDump data)))
      false none none with
  | (Except.ok true, fs1) => (Except.ok true, fs1)
  | (Except.ok false, fs1) => (Except.ok false, fs1)
  | (Except.error e, fs1) => (Except.error e, fs1)

/-! ## Specification-side definitions used by the claims -/

/-- Specification view of write normalisation (the bytes that must land on
disk): in binary mode a `str` payload is UTF-8-encoded and a `bytes`
payload is written raw; in text mode a `bytes` payload is first UTF-8
decoded and the resulting string is written through the (UTF-8) text
handle. -/
def writtenBytes (content : Content) (binary : Bool) : Option (List Nat) :=
  match binary, content with
  | true, Content.str cs => utf8Encode cs
  | true, Content.bytes bs => some bs
  | false, Content.str cs => utf8Encode cs
  | false, Content.bytes bs =>
    match utf8Decode bs with
    | some cs => utf8Encode cs
    | none => none

instance exceptDecEq {α β : Type} [DecidableEq α] [DecidableEq β] :
    DecidableEq (Except α β)
  | Except.ok a, Except.ok b =>
    if h : a = b then isTrue (congrArg Except.ok h)
    else isFalse (fun hc => h (Except.ok.inj hc))
  | Except.error a, Except.error b =>
    if h : a = b then isTrue (congrArg Except.error h)
    else isFalse (fun hc => h (Except.error.inj hc))
  | Except.ok _, Except.error _ => isFalse (fun hc => Except.noConfusion hc)
  | Except.error _, Except.ok _ => isFalse (fun hc => Except.noConfusion hc)

/-- The empty filesystem. -/
def fs0 : FS := ⟨[]⟩

/-- A filesystem with a single directory `d`. -/
def fsD : FS := ⟨[("d", Node.dir)]⟩

/-- A filesystem with a file `s` and a directory `d`. -/
def fsFD : FS := ⟨[("s", Node.file [104, 105]), ("d", Node.dir)]⟩

/-- A filesystem with two directories. -/
def fsDD : FS := ⟨[("a", Node.dir), ("d", Node.dir)]⟩

/-- A filesystem with two files. -/
def fsFF : FS := ⟨[("s", Node.file [104]), ("t", Node.file [105])]⟩

/-- The mapping of the spec's round-trip example. -/
def mWit : List (String × Value) :=
  [("key", Value.vstr "value"), ("n", Value.vint 42)]

/-- The spec's listing example: a tree holding `a.txt` and `sub/b.txt`. -/
def tWit : DirTree :=
  DirTree.node ["a.txt"] [("sub", DirTree.node ["b.txt"] [])]

/-- A filesystem with an empty file and two text files, one of which holds a
document that fails to parse as YAML (`a: 1` followed by a stray `- 2`). -/
def fsY : FS :=
  ⟨[("empty.yaml", Node.file []),
    ("broken.yaml",
      Node.file [97, 58, 32, 49, 10, 45, 32, 50, 10]),
    ("null.yaml", Node.file [110, 117, 108, 108, 10])]⟩

/-! # Theorems -/

/-! ## Association-list filesystem lemmas -/

@[simp]
theorem lookup_set_self (fs : FS) (p : String) (n : Node) :
    (fs.set p n).lookup p = some n := by
  simp [FS.set, FS.lookup, lookupEntries]

theorem lookup_set_ne (fs : FS) (p q : String) (n : Node) (h : ¬ p = q) :
    (fs.set p n).lookup q = fs.lookup q := by
  simp [FS.set, FS.lookup, lookupEntries, h]

@[simp]
theorem isFile_set_file (fs : FS) (p : String) (bs : List Nat) :
    (fs.set p (Node.file bs)).isFile p = true := by
  simp [FS.isFile]

@[simp]
theorem isDir_set_dir (fs : FS) (p : String) :
    (fs.set p Node.dir).isDir p = true := by
  simp [FS.isDir]

/-! ## UTF-8 round trip -/

theorem isCont_iff (b : Nat) : isCont b = true ↔ 0x80 ≤ b ∧ b < 0xC0 := by
  simp [isCont]

/-- The decoder's single step inverts the encoder on any scalar. -/
theorem utf8Step_encodeChar (c : Nat) (h : isScalar c = true)
    (rest : List Nat) :
    ∃ b0 tail, utf8EncodeChar c = b0 :: tail ∧
      utf8Step b0 (tail ++ rest) = some (c, rest) := by
  have hc : c < 0xD800 ∨ (0xE000 ≤ c ∧ c < 0x110000) := by
    simp only [isScalar, Bool.or_eq_true, Bool.and_eq_true,
      decide_eq_true_eq] at h
    exact h
  by_cases h1 : c < 0x80
  · refine ⟨c, [], by rw [utf8EncodeChar, if_pos h1], ?_⟩
    rw [List.nil_append, utf8Step.eq_def, if_pos h1]
  · by_cases h2 : c < 0x800
    · refine ⟨0xC0 + c / 64, [0x80 + c % 64], ?_, ?_⟩
      · rw [utf8EncodeChar, if_neg h1, if_pos h2]
      · rw [List.cons_append, List.nil_append, utf8Step.eq_def]
        rw [if_neg (by omega), if_neg (by omega), if_pos (by omega)]
        dsimp only
        rw [if_pos (by rw [isCont_iff]; omega)]
        have : (0xC0 + c / 64 - 0xC0) * 64 + (0x80 + c % 64 - 0x80) = c := by
          omega
        rw [this]
    · by_cases h3 : c < 0x10000
      · refine ⟨0xE0 + c / 4096, [0x80 + c / 64 % 64, 0x80 + c % 64], ?_, ?_⟩
        · rw [utf8EncodeChar, if_neg h1, if_neg h2, if_pos h3]
        · rw [List.cons_append, List.cons_append, List.nil_append,
            utf8Step.eq_def]
          rw [if_neg (by omega), if_neg (by omega), if_neg (by omega),
            if_pos (by omega)]
          dsimp only
          have hcond :
              ((if 0xE0 + c / 4096 = 0xE0 then
                  decide (0xA0 ≤ 0x80 + c / 64 % 64) &&
                    decide (0x80 + c / 64 % 64 < 0xC0)
                else if 0xE0 + c / 4096 = 0xED then
                  decide (0x80 ≤ 0x80 + c / 64 % 64) &&
                    decide (0x80 + c / 64 % 64 < 0xA0)
                else isCont (0x80 + c / 64 % 64)) &&
                isCont (0x80 + c % 64)) = true := by
            by_cases he0 : 0xE0 + c / 4096 = 0xE0
            · rw [if_pos he0]
              simp only [isCont, Bool.and_eq_true, decide_eq_true_eq]
              omega
            · rw [if_neg he0]
              by_cases hed : 0xE0 + c / 4096 = 0xED
              · rw [if_pos hed]
                simp only [isCont, Bool.and_eq_true, decide_eq_true_eq]
                omega
              · rw [if_neg hed]
                simp only [isCont, Bool.and_eq_true, decide_eq_true_eq]
                omega
          rw [if_pos hcond]
          have : (0xE0 + c / 4096 - 0xE0) * 4096 +
              (0x80 + c / 64 % 64 - 0x80) * 64 +
              (0x80 + c % 64 - 0x80) = c := by
            omega
          rw [this]
      · refine ⟨0xF0 + c / 262144,
          [0x80 + c / 4096 % 64, 0x80 + c / 64 % 64, 0x80 + c % 64], ?_, ?_⟩
        · rw [utf8EncodeChar, if_neg h1, if_neg h2, if_neg h3]
        · rw [List.cons_append, List.cons_append, List.cons_append,
            List.nil_append, utf8Step.eq_def]
          rw [if_neg (by omega), if_neg (by omega), if_neg (by omega),
            if_neg (by omega), if_pos (by omega)]
          dsimp only
          have hcond :
              ((if 0xF0 + c / 262144 = 0xF0 then
                  decide (0x90 ≤ 0x80 + c / 4096 % 64) &&
                    decide (0x80 + c / 4096 % 64 < 0xC0)
                else if 0xF0 + c / 262144 = 0xF4 then
                  decide (0x80 ≤ 0x80 + c / 4096 % 64) &&
                    decide (0x80 + c / 4096 % 64 < 0x90)
                else isCont (0x80 + c / 4096 % 64)) &&
                isCont (0x80 + c / 64 % 64) && isCont (0x80 + c % 64)) =
                true := by
            by_cases hf0 : 0xF0 + c / 262144 = 0xF0
            · rw [if_pos hf0]
              simp only [isCont, Bool.and_eq_true, decide_eq_true_eq]
              omega
            · rw [if_neg hf0]
              by_cases hf4 : 0xF0 + c / 262144 = 0xF4
              · rw [if_pos hf4]
                simp only [isCont, Bool.and_eq_true, decide_eq_true_eq]
                omega
              · rw [if_neg hf4]
                simp only [isCont, Bool.and_eq_true, decide_eq_true_eq]
                omega
          rw [if_pos hcond]
          have : (0xF0 + c / 262144 - 0xF0) * 262144 +
              (0x80 + c / 4096 % 64 - 0x80) * 4096 +
              (0x80 + c / 64 % 64 - 0x80) * 64 +
              (0x80 + c % 64 - 0x80) = c := by
            omega
          rw [this]

theorem utf8DecodeAux_encode (cs : List Nat) (h : cs.all isScalar = true)
    (fuel : Nat) (hf : cs.length ≤ fuel) :
    utf8DecodeAux fuel (cs.flatMap utf8EncodeChar) = some cs := by
  induction cs generalizing fuel with
  | nil => cases fuel <;> rfl
  | cons c cs ih =>
    simp only [List.all_cons, Bool.and_eq_true] at h
    obtain ⟨b0, tail, hEnc, hStep⟩ :=
      utf8Step_encodeChar c h.1 (cs.flatMap utf8EncodeChar)
    rw [List.flatMap_cons, hEnc, List.cons_append]
    cases fuel with
    | zero => exact absurd hf (by simp)
    | succ fuel =>
      rw [utf8DecodeAux, hStep]
      dsimp only
      rw [ih h.2 fuel (by simp only [List.length_cons] at hf; omega)]
      rfl

theorem length_le_flatMap_encodeChar (cs : List Nat) :
    cs.length ≤ (cs.flatMap utf8EncodeChar).length := by
  induction cs with
  | nil => simp
  | cons c cs ih =>
    rw [List.flatMap_cons, List.length_append, List.length_cons]
    have : 1 ≤ (utf8EncodeChar c).length := by
      rw [utf8EncodeChar]
      split_ifs <;> simp
    omega

theorem utf8Decode_flatMap_encodeChar (cs : List Nat)
    (h : cs.all isScalar = true) :
    utf8Decode (cs.flatMap utf8EncodeChar) = some cs :=
  utf8DecodeAux_encode cs h _ (length_le_flatMap_encodeChar cs)

theorem utf8Encode_some {cs bs : List Nat} (h : utf8Encode cs = some bs) :
    cs.all isScalar = true ∧ bs = cs.flatMap utf8EncodeChar := by
  unfold utf8Encode at h
  by_cases ha : cs.all isScalar = true
  · rw [if_pos ha] at h
    exact ⟨ha, (Option.some_injective _ h).symm⟩
  · rw [if_neg ha] at h
    exact absurd h (by simp)

/-- Decoding inverts encoding: the UTF-8 round trip at the codec level. -/
theorem utf8_round_trip {cs bs : List Nat} (h : utf8Encode cs = some bs) :
    utf8Decode bs = some cs := by
  obtain ⟨hall, rfl⟩ := utf8Encode_some h
  exact utf8Decode_flatMap_encodeChar cs hall

/-! ## `write_file` characterisation -/

theorem writtenBytes_of_norm {content : Content} {binary : Bool}
    {c : Content} {bs : List Nat}
    (hN : normalizeContent content binary = Except.ok c)
    (hB : contentBytes c = some bs) :
    writtenBytes content binary = some bs := by
  cases binary with
  | false =>
    cases content with
    | str cs =>
      simp only [normalizeContent, Except.ok.injEq] at hN
      subst hN
      simpa [writtenBytes, contentBytes] using hB
    | bytes bs0 =>
      cases hD : utf8Decode bs0 with
      | none => simp [normalizeContent, hD] at hN
      | some cs =>
        simp only [normalizeContent, hD, Except.ok.injEq] at hN
        subst hN
        simp only [writtenBytes, hD]
        simpa [contentBytes] using hB
  | true =>
    cases content with
    | str cs =>
      cases hEnc : utf8Encode cs with
      | none => simp [normalizeContent, hEnc] at hN
      | some bs1 =>
        simp only [normalizeContent, hEnc, Except.ok.injEq] at hN
        subst hN
        simp only [writtenBytes, hEnc]
        simpa [contentBytes] using hB
    | bytes bs0 =>
      simp only [normalizeContent, Except.ok.injEq] at hN
      subst hN
      simpa [writtenBytes, contentBytes] using hB

/-- A successful `write_file` leaves exactly the mode-normalised bytes at
the written path, regardless of what was there before. -/
theorem write_file_ok_lookup (fs : FS) (file_path : String)
    (content : Content) (binary : Bool) (permissions : Option Nat)
    (user : Option String)
    (h : (write_file fs file_path content binary permissions user).fst =
      Except.ok true) :
    ∃ bs, writtenBytes content binary = some bs ∧
      (write_file fs file_path content binary permissions user).snd.lookup
        file_path = some (Node.file bs) := by
  rcases hE : ensureParent fs file_path permissions user with ⟨res, fs1⟩
  unfold write_file at h ⊢
  rw [hE] at h ⊢
  cases res with
  | error e => simp at h
  | ok u =>
    dsimp only at h ⊢
    cases hN : normalizeContent content binary with
    | error e => rw [hN] at h; simp at h
    | ok c =>
      rw [hN] at h
      dsimp only at h ⊢
      cases hB : contentBytes c with
      | none => rw [hB] at h; simp at h
      | some bs =>
        rw [hB] at h
        dsimp only at h ⊢
        cases hW : osOpenWrite fs1 file_path bs with
        | none => rw [hW] at h; simp at h
        | some fs2 =>
          rw [hW] at h
          dsimp only at h ⊢
          refine ⟨bs, writtenBytes_of_norm hN hB, ?_⟩
          unfold osOpenWrite at hW
          by_cases hd : fs1.isDir file_path = true
          · rw [if_pos hd] at hW
            exact absurd hW (by simp)
          · rw [if_neg hd] at hW
            have hfs2 := Option.some.inj hW
            subst hfs2
            exact lookup_set_self fs1 file_path (Node.file bs)

/-- **C8.**  For every path `p` and content `c`, `writeFile(p, c, binary=b)`
normalises `c` to the chosen mode — in text mode a bytes payload is decoded
as UTF-8 before writing, in binary mode a text payload is UTF-8-encoded
before writing (`writtenBytes`) — and the file at `p` afterwards holds
exactly those bytes whatever was there before: fully overwritten, never
appended to. -/
theorem writeFile_normalizes_and_truncates (fs : FS) (file_path : String)
    (content : Content) (binary : Bool)
    (h : (write_file fs file_path content binary none none).fst =
      Except.ok true) :
    ∃ bs, writtenBytes content binary = some bs ∧
      (write_file fs file_path content binary none none).snd.lookup
        file_path = some (Node.file bs) :=
  write_file_ok_lookup fs file_path content binary none none h

/-- Witness for C8: writing the UTF-8 bytes of `é` in text mode over a file
that previously held other content leaves exactly the re-encoded bytes. -/
theorem writeFile_normalizes_and_truncates_witness :
    ∃ bs, writtenBytes (Content.bytes [0xC3, 0xA9]) false = some bs ∧
      (write_file (FS.mk [("old.txt", Node.file [0, 1, 2])]) "old.txt"
        (Content.bytes [0xC3, 0xA9]) false none none).snd.lookup "old.txt" =
        some (Node.file bs) :=
  writeFile_normalizes_and_truncates (FS.mk [("old.txt", Node.file [0, 1, 2])])
    "old.txt" (Content.bytes [0xC3, 0xA9]) false (by rfl)

/-- **C2.**  A successful `writeFile(p, c, binary=b)` followed by
`readFile(p, binary=b)` returns exactly `c`, in text mode (string payload,
including multi-byte UTF-8 code points) and in binary mode (bytes
payload). -/
theorem writeRead_roundTrip (fs : FS) (p : String) (cs bs : List Nat) :
    ((write_file fs p (Content.str cs) false none none).fst =
        Except.ok true →
      read_file (write_file fs p (Content.str cs) false none none).snd p
        false = Except.ok (Content.str cs)) ∧
    ((write_file fs p (Content.bytes bs) true none none).fst =
        Except.ok true →
      read_file (write_file fs p (Content.bytes bs) true none none).snd p
        true = Except.ok (Content.bytes bs)) := by
  constructor
  · intro h
    obtain ⟨bs1, hwb, hlook⟩ :=
      write_file_ok_lookup fs p (Content.str cs) false none none h
    have henc : utf8Encode cs = some bs1 := by
      simpa [writtenBytes] using hwb
    have hf : file_exist (write_file fs p (Content.str cs) false
        none none).snd p = true := by
      unfold file_exist FS.isFile
      rw [hlook]
    unfold read_file
    rw [if_neg (not_not_intro hf), hlook]
    dsimp only
    rw [if_neg (show ¬ (false = true) by simp)]
    rw [utf8_round_trip henc]
  · intro h
    obtain ⟨bs1, hwb, hlook⟩ :=
      write_file_ok_lookup fs p (Content.bytes bs) true none none h
    have hbs : bs = bs1 := by
      simpa [writtenBytes] using hwb
    subst hbs
    have hf : file_exist (write_file fs p (Content.bytes bs) true
        none none).snd p = true := by
      unfold file_exist FS.isFile
      rw [hlook]
    unfold read_file
    rw [if_neg (not_not_intro hf), hlook]
    dsimp only
    exact if_pos rfl

/-- Witness for C2: text round trip of `héllo` (with a parent directory
created on the way) and binary round trip of raw bytes. -/
theorem writeRead_roundTrip_witness :
    read_file (write_file fs0 "data/f.txt"
        (Content.str [104, 233, 108, 108, 111]) false none none).snd
      "data/f.txt" false =
      Except.ok (Content.str [104, 233, 108, 108, 111]) ∧
    read_file (write_file fs0 "b.bin" (Content.bytes [0, 255, 7]) true
        none none).snd "b.bin" true =
      Except.ok (Content.bytes [0, 255, 7]) :=
  ⟨(writeRead_roundTrip fs0 "data/f.txt" [104, 233, 108, 108, 111] []).1
      (by rfl),
   (writeRead_roundTrip fs0 "b.bin" [] [0, 255, 7]).2 (by rfl)⟩

/-! ## Directory / file operation claims -/

theorem isFile_lookup {fs : FS} {p : String} (h : fs.isFile p = true) :
    ∃ bs, fs.lookup p = some (Node.file bs) := by
  unfold FS.isFile at h
  cases hl : fs.lookup p with
  | none => rw [hl] at h; simp at h
  | some n =>
    cases n with
    | dir => rw [hl] at h; simp at h
    | file bs => exact ⟨bs, rfl⟩


theorem isFile_false_of_isDir {fs : FS} {p : String}
    (h : fs.isDir p = true) : fs.isFile p = false := by
  have hl : fs.lookup p = some Node.dir := by
    simpa [FS.isDir] using h
  unfold FS.isFile
  rw [hl]

/-- **C4.**  If `path` already resolves to a directory, `create_directory`
returns `True` immediately and leaves the filesystem untouched, whatever
`permissions` and `user` are; consequently a second `create_directory`
right after any successful one succeeds with no error and no state
change. -/
theorem createDirectory_idempotent (fs : FS) (path : String)
    (permissions : Option Nat) (user : Option String) :
    (fs.isDir path = true →
      create_directory fs path permissions user = (Except.ok true, fs)) ∧
    (∀ r fs1,
      create_directory fs path permissions user = (Except.ok r, fs1) →
      create_directory fs1 path permissions user = (Except.ok true, fs1)) := by
  constructor
  · intro h
    unfold create_directory directory_exist
    rw [if_pos h]
  · intro r fs1 h
    unfold create_directory directory_exist at h ⊢
    by_cases hd : fs.isDir path = true
    · rw [if_pos hd] at h
      rw [Prod.mk.injEq] at h
      obtain ⟨h1, h2⟩ := h
      subst h2
      rw [if_pos hd]
    · rw [if_neg hd] at h
      cases hM : osMakedirs fs path with
      | none => rw [hM] at h; simp at h
      | some fs2 =>
        rw [hM] at h
        dsimp only at h
        rw [Prod.mk.injEq] at h
        obtain ⟨h1, h2⟩ := h
        subst h2
        unfold osMakedirs at hM
        by_cases hl : fs.lookup path = none
        · rw [if_pos hl] at hM
          have h3 := Option.some.inj hM
          subst h3
          rw [if_pos (isDir_set_dir fs path)]
        · rw [if_neg hl] at hM
          exact absurd hM (by simp)

/-- Witness for C4: creating `d` when it already exists returns `True`
unchanged even with permissions and owner supplied, and a repeated create
after a fresh create succeeds with no state change. -/
theorem createDirectory_idempotent_witness :
    create_directory fsD "d" (some 493) (some "bob") = (Except.ok true, fsD) ∧
    create_directory (create_directory fs0 "d" none none).snd "d" none none =
      (Except.ok true, (create_directory fs0 "d" none none).snd) :=
  ⟨(createDirectory_idempotent fsD "d" (some 493) (some "bob")).1 (by decide),
   (createDirectory_idempotent fs0 "d" none none).2 true
     (create_directory fs0 "d" none none).snd (by rfl)⟩

/-- **C5 counterexample.**  The claim quantifies over every `src`: but with
`dst` an existing directory and `src` absent, `rename_directory` raises
`DIRECTORY_NOT_FOUND` (the not-found guard fires first), not
`DIRECTORY_ALREADY_EXISTS`. -/
theorem renameDirectory_dstExists_claim_false :
    fsD.isDir "d" = true ∧
    rename_directory fsD "s" "d" =
      (Except.error (Err.directoryUtils "DIRECTORY_NOT_FOUND"), fsD) ∧
    ¬ (rename_directory fsD "s" "d").fst =
        Except.error (Err.directoryUtils "DIRECTORY_ALREADY_EXISTS") := by
  refine ⟨by decide, by decide, by decide⟩

/-- **C5 (amended).**  Provided `src` exists as the expected type,
`rename_directory` with `dst` an existing directory — and `rename_file`
with `dst` an existing file — raise the AlreadyExists error
(`DIRECTORY_ALREADY_EXISTS` / `FILE_ALREADY_EXISTS`) from the pre-check,
before any OS mutation, returning the filesystem unchanged. -/
theorem rename_dstExists_alreadyExists (fs : FS) (src dst : String) :
    (directory_exist fs src = true → directory_exist fs dst = true →
      rename_directory fs src dst =
        (Except.error (Err.directoryUtils "DIRECTORY_ALREADY_EXISTS"), fs)) ∧
    (file_exist fs src = true → file_exist fs dst = true →
      rename_file fs src dst =
        (Except.error (Err.fileUtils "FILE_ALREADY_EXISTS"), fs)) := by
  constructor
  · intro hs hd
    unfold rename_directory
    rw [if_neg (not_not_intro hs), if_pos hd]
  · intro hs hd
    unfold rename_file
    rw [if_neg (not_not_intro hs), if_pos hd]

/-- Witness for amended C5: a directory renamed onto an existing directory
and a file renamed onto an existing file both fail with AlreadyExists and
leave the filesystem as it was. -/
theorem rename_dstExists_alreadyExists_witness :
    rename_directory fsDD "a" "d" =
      (Except.error (Err.directoryUtils "DIRECTORY_ALREADY_EXISTS"), fsDD) ∧
    rename_file fsFF "s" "t" =
      (Except.error (Err.fileUtils "FILE_ALREADY_EXISTS"), fsFF) :=
  ⟨(rename_dstExists_alreadyExists fsDD "a" "d").1 (by decide) (by decide),
   (rename_dstExists_alreadyExists fsFF "s" "t").2 (by decide) (by decide)⟩

theorem move_file_cases (fs : FS) (src dst : String) :
    (file_exist fs src = false ∧ move_file fs src dst =
      (Except.error (Err.fileUtils "FILE_NOT_FOUND"), fs)) ∨
    (file_exist fs src = true ∧
      ((move_file fs src dst).fst = Except.ok true ∨
        (move_file fs src dst).fst =
          Except.error (Err.fileUtils "FILE_MOVE_ERROR"))) := by
  by_cases hs : file_exist fs src = true
  · right
    refine ⟨hs, ?_⟩
    unfold move_file
    rw [if_neg (not_not_intro hs)]
    cases hM : shutilMove fs src dst with
    | none => right; rfl
    | some fs1 => left; rfl
  · left
    refine ⟨by simpa using hs, ?_⟩
    unfold move_file
    rw [if_pos hs]

theorem move_directory_cases (fs : FS) (src dst : String) :
    (directory_exist fs src = false ∧ move_directory fs src dst =
      (Except.error (Err.directoryUtils "DIRECTORY_NOT_FOUND"), fs)) ∨
    (directory_exist fs src = true ∧
      ((move_directory fs src dst).fst = Except.ok true ∨
        (move_directory fs src dst).fst =
          Except.error (Err.directoryUtils "DIRECTORY_MOVE_ERROR"))) := by
  by_cases hs : directory_exist fs src = true
  · right
    refine ⟨hs, ?_⟩
    unfold move_directory
    rw [if_neg (not_not_intro hs)]
    cases hM : shutilMove fs src dst with
    | none => right; rfl
    | some fs1 => left; rfl
  · left
    refine ⟨by simpa using hs, ?_⟩
    unfold move_directory
    rw [if_pos hs]

/-- **C6.**  `move_file` and `move_directory` raise the NotFound error
exactly when `src` is missing as the expected type, perform no pre-check on
`dst`, and never raise an AlreadyExists error themselves — any failure of
the host move primitive is classified as a move error instead. -/
theorem move_notFound_iff_never_alreadyExists (fs : FS) (src dst : String) :
    ((move_file fs src dst).fst =
        Except.error (Err.fileUtils "FILE_NOT_FOUND") ↔
      file_exist fs src = false) ∧
    ((move_directory fs src dst).fst =
        Except.error (Err.directoryUtils "DIRECTORY_NOT_FOUND") ↔
      directory_exist fs src = false) ∧
    (∀ e, (move_file fs src dst).fst = Except.error e →
      ¬ e = Err.fileUtils "FILE_ALREADY_EXISTS") ∧
    (∀ e, (move_directory fs src dst).fst = Except.error e →
      ¬ e = Err.directoryUtils "DIRECTORY_ALREADY_EXISTS") := by
  refine ⟨⟨?_, ?_⟩, ⟨?_, ?_⟩, ?_, ?_⟩
  · intro h
    rcases move_file_cases fs src dst with ⟨h1, _⟩ | ⟨h1, h2 | h2⟩
    · exact h1
    · rw [h] at h2; exact absurd h2 (by simp)
    · rw [h] at h2
      exact absurd (Except.error.inj h2.symm) (by decide)
  · intro h
    rcases move_file_cases fs src dst with ⟨h1, h2⟩ | ⟨h1, _⟩
    · rw [h2]
    · rw [h1] at h; exact absurd h (by simp)
  · intro h
    rcases move_directory_cases fs src dst with ⟨h1, _⟩ | ⟨h1, h2 | h2⟩
    · exact h1
    · rw [h] at h2; exact absurd h2 (by simp)
    · rw [h] at h2
      exact absurd (Except.error.inj h2.symm) (by decide)
  · intro h
    rcases move_directory_cases fs src dst with ⟨h1, h2⟩ | ⟨h1, _⟩
    · rw [h2]
    · rw [h1] at h; exact absurd h (by simp)
  · intro e he
    rcases move_file_cases fs src dst with ⟨_, h2⟩ | ⟨_, h2 | h2⟩
    · rw [h2] at he
      have h3 := Except.error.inj he
      subst h3
      decide
    · rw [he] at h2; exact absurd h2 (by simp)
    · rw [he] at h2
      have h3 := Except.error.inj h2.symm
      subst h3
      decide
  · intro e he
    rcases move_directory_cases fs src dst with ⟨_, h2⟩ | ⟨_, h2 | h2⟩
    · rw [h2] at he
      have h3 := Except.error.inj he
      subst h3
      decide
    · rw [he] at h2; exact absurd h2 (by simp)
    · rw [he] at h2
      have h3 := Except.error.inj h2.symm
      subst h3
      decide

/-- Witness for C6: moving a missing file raises NotFound; moving an
existing directory onto an existing destination raises the move error and
not AlreadyExists. -/
theorem move_notFound_iff_never_alreadyExists_witness :
    (move_file fsD "nope" "d").fst =
      Except.error (Err.fileUtils "FILE_NOT_FOUND") ∧
    ¬ (move_directory fsDD "a" "d").fst =
        Except.error (Err.directoryUtils "DIRECTORY_ALREADY_EXISTS") :=
  ⟨(move_notFound_iff_never_alreadyExists fsD "nope" "d").1.mpr (by decide),
   fun hc =>
     (move_notFound_iff_never_alreadyExists fsDD "a" "d").2.2.2 _ hc rfl⟩

/-- **C10.**  With `src` an existing file and `dst` an existing directory,
both pre-checks of `rename_file` and `copy_file` pass (`file_exist` is
false on a directory), the OS call is reached, and any failure is
classified as `FILE_RENAME_ERROR` / `FILE_COPY_ERROR` — never
`FILE_ALREADY_EXISTS`. -/
theorem renameCopy_dstDirectory_passes_prechecks (fs : FS) (src dst : String)
    (hs : file_exist fs src = true) (hd : fs.isDir dst = true) :
    file_exist fs dst = false ∧
    rename_file fs src dst =
      (Except.error (Err.fileUtils "FILE_RENAME_ERROR"), fs) ∧
    (∀ e, (copy_file fs src dst).fst = Except.error e →
      e = Err.fileUtils "FILE_COPY_ERROR") := by
  have hdf : file_exist fs dst = false := isFile_false_of_isDir hd
  refine ⟨hdf, ?_, ?_⟩
  · unfold rename_file
    rw [if_neg (not_not_intro hs), if_neg (by simp [file_exist] at hdf ⊢; simp [hdf])]
    obtain ⟨bs, hl⟩ := isFile_lookup hs
    unfold osRename
    rw [hl]
    dsimp only
    rw [if_pos hd]
  · intro e he
    unfold copy_file at he
    rw [if_neg (not_not_intro hs),
      if_neg (by simp [file_exist] at hdf ⊢; simp [hdf])] at he
    cases hC : shutilCopy2 fs src dst with
    | none =>
      rw [hC] at he
      dsimp only at he
      exact (Except.error.inj he).symm
    | some fs1 =>
      rw [hC] at he
      dsimp only at he
      exact absurd he (by simp)

/-- Witness for C10: renaming the file `s` onto the directory `d` yields
`FILE_RENAME_ERROR` with the filesystem untouched. -/
theorem renameCopy_dstDirectory_passes_prechecks_witness :
    file_exist fsFD "d" = false ∧
    rename_file fsFD "s" "d" =
      (Except.error (Err.fileUtils "FILE_RENAME_ERROR"), fsFD) ∧
    (∀ e, (copy_file fsFD "s" "d").fst = Except.error e →
      e = Err.fileUtils "FILE_COPY_ERROR") :=
  renameCopy_dstDirectory_passes_prechecks fsFD "s" "d" (by decide) (by decide)

/-! ## Shape lemmas: which outcomes each operation can produce -/

theorem create_directory_fst_shape (fs : FS) (p : String)
    (permissions : Option Nat) (user : Option String) :
    (create_directory fs p permissions user).fst = Except.ok true ∨
    (create_directory fs p permissions user).fst =
      Except.error (Err.directoryUtils "DIRECTORY_CREATION_ERROR") := by
  unfold create_directory
  by_cases hd : directory_exist fs p = true
  · rw [if_pos hd]; left; rfl
  · rw [if_neg hd]
    cases hM : osMakedirs fs p with
    | none => right; rfl
    | some fs1 => left; rfl

theorem ensureParent_fst_shape (fs : FS) (p : String)
    (permissions : Option Nat) (user : Option String) :
    (ensureParent fs p permissions user).fst = Except.ok () ∨
    (ensureParent fs p permissions user).fst =
      Except.error (Err.directoryUtils "DIRECTORY_CREATION_ERROR") := by
  unfold ensureParent
  by_cases h1 : dirname p = ""
  · rw [if_pos h1]; left; rfl
  · rw [if_neg h1]
    by_cases h2 : directory_exist fs (dirname p) = true
    · rw [if_pos h2]; left; rfl
    · rw [if_neg h2]
      rcases hC : create_directory fs (dirname p) permissions user
        with ⟨res, fs1⟩
      rcases create_directory_fst_shape fs (dirname p) permissions user
        with hA | hA <;> rw [hC] at hA <;> dsimp only at hA <;> subst hA
      · left; rfl
      · right; rfl

theorem normalizeContent_error_shape {content : Content} {binary : Bool}
    {e : Err} (h : normalizeContent content binary = Except.error e) :
    e = Err.unicodeError := by
  cases binary with
  | false =>
    cases content with
    | str cs => exact absurd h (by simp [normalizeContent])
    | bytes bs =>
      cases hD : utf8Decode bs with
      | none =>
        simp only [normalizeContent, hD] at h
        exact (Except.error.inj h).symm
      | some cs => simp [normalizeContent, hD] at h
  | true =>
    cases content with
    | str cs =>
      cases hEnc : utf8Encode cs with
      | none =>
        simp only [normalizeContent, hEnc] at h
        exact (Except.error.inj h).symm
      | some bs => simp [normalizeContent, hEnc] at h
    | bytes bs => exact absurd h (by simp [normalizeContent])

theorem write_file_fst_shape (fs : FS) (p : String) (content : Content)
    (binary : Bool) (permissions : Option Nat) (user : Option String) :
    (write_file fs p content binary permissions user).fst = Except.ok true ∨
    (write_file fs p content binary permissions user).fst =
      Except.error (Err.directoryUtils "DIRECTORY_CREATION_ERROR") ∨
    (write_file fs p content binary permissions user).fst =
      Except.error Err.unicodeError ∨
    (write_file fs p content binary permissions user).fst =
      Except.error (Err.fileUtils "FILE_WRITE_ERROR") := by
  unfold write_file
  rcases hE : ensureParent fs p permissions user with ⟨res, fs1⟩
  rcases ensureParent_fst_shape fs p permissions user with hA | hA <;>
    rw [hE] at hA <;> dsimp only at hA <;> subst hA <;> dsimp only
  · cases hN : normalizeContent content binary with
    | error e =>
      have he := normalizeContent_error_shape hN
      subst he
      right; right; left; rfl
    | ok c =>
      dsimp only
      cases hB : contentBytes c with
      | none => right; right; right; rfl
      | some bs =>
        dsimp only
        cases hW : osOpenWrite fs1 p bs with
        | none => right; right; right; rfl
        | some fs2 => left; rfl
  · right; left; rfl

/-- **C9.**  `create_directory` and `write_file` never return `False` —
each returns `True` or raises — so `write_file`'s
`DIRECTORY_CREATION_FAILED` branch and `write_yaml_file`'s
return-`False`-on-falsy-write else-branch are unreachable, and a parent
creation failure inside `write_file` surfaces as the
`DirectoryUtilsException` `DIRECTORY_CREATION_ERROR`. -/
theorem create_write_never_false :
    (∀ fs p permissions user,
      ¬ (create_directory fs p permissions user).fst = Except.ok false) ∧
    (∀ fs p c b permissions user,
      ¬ (write_file fs p c b permissions user).fst = Except.ok false ∧
      ¬ (write_file fs p c b permissions user).fst =
          Except.error (Err.fileUtils "DIRECTORY_CREATION_FAILED")) ∧
    (∀ fs p data,
      ¬ (write_yaml_file fs p data).fst = Except.ok false) ∧
    (∀ fs p c b permissions user, ¬ dirname p = "" →
      directory_exist fs (dirname p) = false →
      ¬ fs.lookup (dirname p) = none →
      write_file fs p c b permissions user =
        (Except.error (Err.directoryUtils "DIRECTORY_CREATION_ERROR"), fs)) := by
  refine ⟨?_, ?_, ?_, ?_⟩
  · intro fs p permissions user h
    rcases create_directory_fst_shape fs p permissions user with hA | hA <;>
      rw [h] at hA <;> exact absurd hA (by decide)
  · intro fs p c b permissions user
    constructor
    · intro h
      rcases write_file_fst_shape fs p c b permissions user
        with hA | hA | hA | hA <;>
        rw [h] at hA <;> exact absurd hA (by decide)
    · intro h
      rcases write_file_fst_shape fs p c b permissions user
        with hA | hA | hA | hA <;>
        rw [h] at hA <;> exact absurd hA (by decide)
  · intro fs p data h
    unfold write_yaml_file at h
    rcases hW : write_file fs p (Content.str (strToCodes (safeDump data)))
      false none none with ⟨res, fs1⟩
    rw [hW] at h
    cases res with
    | ok bv =>
      cases bv with
      | false =>
        rcases write_file_fst_shape fs p
            (Content.str (strToCodes (safeDump data))) false none none
          with hA | hA | hA | hA <;>
          rw [hW] at hA <;> dsimp only at hA <;> exact absurd hA (by decide)
      | true => simp at h
    | error e => simp at h
  · intro fs p c b permissions user hne hnd hx
    have hM : osMakedirs fs (dirname p) = none := by
      unfold osMakedirs
      rw [if_neg hx]
    have hcd : create_directory fs (dirname p) permissions user =
        (Except.error (Err.directoryUtils "DIRECTORY_CREATION_ERROR"), fs) := by
      unfold create_directory
      rw [if_neg (by simp [hnd]), hM]
    have hep : ensureParent fs p permissions user =
        (Except.error (Err.directoryUtils "DIRECTORY_CREATION_ERROR"), fs) := by
      unfold ensureParent
      rw [if_neg hne, if_neg (by simp [hnd]), hcd]
    unfold write_file
    rw [hep]

/-- Witness for C9: a fresh create returns `True`, saving an empty mapping
returns `True` (never `False`), and writing under a parent that exists as a
regular file raises `DIRECTORY_CREATION_ERROR` — the
`DirectoryUtilsException`, not `DIRECTORY_CREATION_FAILED`. -/
theorem create_write_never_false_witness :
    ¬ (create_directory fs0 "x" none none).fst = Except.ok false ∧
    ¬ (write_yaml_file fs0 "c.yaml" []).fst = Except.ok false ∧
    write_file fsY "empty.yaml/sub.txt" (Content.str []) false none none =
      (Except.error (Err.directoryUtils "DIRECTORY_CREATION_ERROR"), fsY) :=
  ⟨create_write_never_false.1 fs0 "x" none none,
   create_write_never_false.2.2.1 fs0 "c.yaml" [],
   create_write_never_false.2.2.2 fsY "empty.yaml/sub.txt" (Content.str [])
     false none none (by decide) (by decide) (by decide)⟩

/-! ## The structured-data layer -/

/-- **C1 (code-bug evidence).**  `load_yaml_file` on a nonexistent path
propagates the `FILE_NOT_FOUND` exception from `read_file` — the call is
not guarded by a `try`, contradicting the claim, the function's own
docstring and its test, which all promise an empty mapping.  The claim's
other parts hold: an empty file, an unparseable document and a document
resolving to null all collapse to the empty mapping. -/
theorem loadYaml_missing_file_raises :
    load_yaml_file fs0 "missing.yaml" =
      Except.error (Err.fileUtils "FILE_NOT_FOUND") ∧
    load_yaml_file fsY "empty.yaml" = Except.ok (Value.vmap []) ∧
    load_yaml_file fsY "broken.yaml" = Except.ok (Value.vmap []) ∧
    load_yaml_file fsY "null.yaml" = Except.ok (Value.vmap []) :=
  ⟨rfl, rfl, rfl, rfl⟩

/-! ## The YAML round trip through the file layer -/

theorem char_toNat_isScalar (c : Char) : isScalar c.toNat = true := by
  have h := c.valid
  simp only [UInt32.isValidChar, Nat.isValidChar] at h
  simp only [isScalar, Char.toNat, Bool.or_eq_true, Bool.and_eq_true,
    decide_eq_true_eq]
  omega

theorem strToCodes_all_isScalar (s : String) :
    (strToCodes s).all isScalar = true := by
  simp only [strToCodes, List.all_eq_true]
  intro x hx
  obtain ⟨c, _, rfl⟩ := List.mem_map.mp hx
  exact char_toNat_isScalar c

theorem codesToStr_strToCodes (s : String) : codesToStr (strToCodes s) = s := by
  cases s with
  | mk data =>
    unfold codesToStr strToCodes
    dsimp only
    congr 1
    rw [List.map_map]
    induction data with
    | nil => rfl
    | cons c cs ih =>
      simp only [List.map_cons, Function.comp_apply, Char.ofNat_toNat]
      rw [ih]

theorem dumpPair_ne_nil (i : Nat) (k : String) (v : Value) :
    ¬ dumpPair i k v = [] := by
  cases v with
  | vnull => exact List.cons_ne_nil _ _
  | vbool b => exact List.cons_ne_nil _ _
  | vint n => exact List.cons_ne_nil _ _
  | vstr s => exact List.cons_ne_nil _ _
  | vmap kvs =>
    cases kvs with
    | nil => exact List.cons_ne_nil _ _
    | cons kv rest => exact List.cons_ne_nil _ _
  | vseq xs =>
    cases xs with
    | nil => exact List.cons_ne_nil _ _
    | cons x rest => exact List.cons_ne_nil _ _

/-- The serializer never produces an empty document, so `load_yaml_file`'s
falsy-content check cannot fire on it. -/
theorem safeDump_data_ne_nil (m : List (String × Value)) :
    ¬ strToCodes (safeDump m) = [] := by
  cases m with
  | nil => decide
  | cons kv rest =>
    unfold safeDump
    dsimp only
    cases hL : dumpMapB 0 (kv :: rest) with
    | nil =>
      unfold dumpMapB at hL
      rcases List.append_eq_nil.mp hL with ⟨h1, _⟩
      exact absurd h1 (dumpPair_ne_nil 0 kv.1 kv.2)
    | cons l ls =>
      simp only [strToCodes, unlines, hL, List.map_cons, unlinesL]
      intro hc
      have := List.map_eq_nil_iff.mp hc
      simp at this

/-- **C3.**  Saving a mapping with `write_yaml_file` and loading it back
with `load_yaml_file` returns the same mapping: the layer stores exactly
the serialized document (UTF-8 round trip through the text file), the
document is never empty, and the null-normalisation does not fire on a
mapping.  The serializer/parser pair (`safeDump`/`safeLoad`, modelling the
external PyYAML collaborators) is assumed to round-trip on the given
mapping — spec §6 states precisely that contract for the external format —
and the witness discharges that hypothesis by computation on the spec's
own example. -/
theorem saveLoad_mapping_roundTrip (fs : FS) (p : String)
    (m : List (String × Value))
    (hrt : safeLoad (safeDump m) = some (Value.vmap m))
    (hw : (write_yaml_file fs p m).fst = Except.ok true) :
    load_yaml_file (write_yaml_file fs p m).snd p =
      Except.ok (Value.vmap m) := by
  have hfst : (write_file fs p (Content.str (strToCodes (safeDump m)))
      false none none).fst = Except.ok true := by
    unfold write_yaml_file at hw
    rcases hW : write_file fs p (Content.str (strToCodes (safeDump m)))
      false none none with ⟨res, fs1⟩
    rw [hW] at hw
    cases res with
    | error e => dsimp only at hw; exact absurd hw (by simp)
    | ok bv =>
      cases bv with
      | false => dsimp only at hw; exact absurd hw (by simp)
      | true => rfl
  have hsnd : (write_yaml_file fs p m).snd =
      (write_file fs p (Content.str (strToCodes (safeDump m)))
        false none none).snd := by
    unfold write_yaml_file
    rcases hW : write_file fs p (Content.str (strToCodes (safeDump m)))
      false none none with ⟨res, fs1⟩
    cases res with
    | error e => rfl
    | ok bv => cases bv <;> rfl
  obtain ⟨bs, hwb, hlook⟩ := write_file_ok_lookup fs p
    (Content.str (strToCodes (safeDump m))) false none none hfst
  have henc : utf8Encode (strToCodes (safeDump m)) = some bs := by
    simpa [writtenBytes] using hwb
  have hdec : utf8Decode bs = some (strToCodes (safeDump m)) :=
    utf8_round_trip henc
  have hfe : file_exist (write_file fs p
      (Content.str (strToCodes (safeDump m))) false none none).snd p =
      true := by
    unfold file_exist FS.isFile
    rw [hlook]
  have hread : read_file (write_file fs p
      (Content.str (strToCodes (safeDump m))) false none none).snd p false =
      Except.ok (Content.str (strToCodes (safeDump m))) := by
    unfold read_file
    rw [if_neg (not_not_intro hfe), hlook]
    dsimp only
    rw [if_neg (show ¬ (false = true) by simp), hdec]
  rw [hsnd]
  unfold load_yaml_file
  rw [hread]
  dsimp only
  rw [if_neg (safeDump_data_ne_nil m), codesToStr_strToCodes, hrt]
  rfl

/-- Witness for C3: the spec's example mapping, saved to a fresh filesystem
and loaded back, is returned unchanged; both hypotheses (the external
serializer round trip and the successful write) are discharged by
computation. -/
theorem saveLoad_mapping_roundTrip_witness :
    load_yaml_file (write_yaml_file fs0 "config.yaml" mWit).snd
      "config.yaml" = Except.ok (Value.vmap mWit) :=
  saveLoad_mapping_roundTrip fs0 "config.yaml" mWit (by rfl) (by rfl)

/-! ## Recursive listing: path component arithmetic -/

theorem data_eq_nil_iff (s : String) : s.data = [] ↔ s = "" := by
  cases s with
  | mk d =>
    constructor
    · intro h
      rw [show d = [] from h]
    · intro h
      rw [h]

theorem splitSlash_ne_nil (cs : List Char) : ¬ splitSlash cs = [] := by
  cases cs with
  | nil => simp [splitSlash]
  | cons c cs =>
    unfold splitSlash
    by_cases hc : c = '/'
    · rw [if_pos hc]; simp
    · rw [if_neg hc]
      cases splitSlash cs with
      | nil => simp
      | cons p ps => simp

theorem splitSlash_append (a b : List Char) :
    splitSlash (a ++ '/' :: b) = splitSlash a ++ splitSlash b := by
  induction a with
  | nil => rfl
  | cons c a ih =>
    rw [List.cons_append]
    by_cases hc : c = '/'
    · subst hc
      show [] :: splitSlash (a ++ '/' :: b) = ([] :: splitSlash a) ++ splitSlash b
      rw [ih, List.cons_append]
    · conv_lhs => rw [splitSlash]
      rw [if_neg hc, ih]
      conv_rhs => rw [splitSlash]
      rw [if_neg hc]
      cases hq : splitSlash a with
      | nil => exact absurd hq (splitSlash_ne_nil a)
      | cons q qs => rfl

theorem splitSlash_no_slash (cs : List Char) (h : ∀ c ∈ cs, ¬ c = '/') :
    splitSlash cs = [cs] := by
  induction cs with
  | nil => rfl
  | cons c cs ih =>
    conv_lhs => rw [splitSlash]
    rw [if_neg (h c (List.mem_cons_self c cs))]
    rw [ih (fun x hx => h x (List.mem_cons_of_mem c hx))]

theorem cplLen_append (A X : List (List Char)) : cplLen (A ++ X) A = A.length := by
  induction A with
  | nil =>
    cases X with
    | nil => rfl
    | cons x xs => rfl
  | cons a A ih =>
    rw [List.cons_append, cplLen, if_pos rfl, ih, List.length_cons]

theorem getLast?_spec (l : List Char) (h : ¬ l = []) :
    ∃ c, l.getLast? = some c ∧ c ∈ l := by
  induction l with
  | nil => exact absurd rfl h
  | cons a l ih =>
    cases l with
    | nil => exact ⟨a, rfl, by simp⟩
    | cons b l2 =>
      obtain ⟨c, hc1, hc2⟩ := ih (by simp)
      exact ⟨c, by rw [List.getLast?_cons_cons]; exact hc1,
        List.mem_cons_of_mem a hc2⟩

theorem goodName_spec {s : String} (h : goodName s = true) :
    ¬ s.data = [] ∧ ∀ c ∈ s.data, ¬ c = '/' := by
  simp only [goodName, Bool.and_eq_true, decide_eq_true_eq,
    List.all_eq_true] at h
  exact ⟨fun hn => h.1 ((data_eq_nil_iff s).mp hn), h.2⟩

/-- Joining a good name onto a good root takes `osJoin`'s separator branch,
and the result is again a good root. -/
theorem osJoin_good {a b : String} (ha1 : ¬ a = "")
    (ha2 : ¬ a.data.getLast? = some '/') (hb : goodName b = true) :
    osJoin a b = a ++ "/" ++ b ∧ (a ++ "/" ++ b).data = a.data ++ '/' :: b.data ∧
    ¬ (a ++ "/" ++ b) = "" ∧
    ¬ (a ++ "/" ++ b).data.getLast? = some '/' := by
  obtain ⟨hbne, hbns⟩ := goodName_spec hb
  have hdata : (a ++ "/" ++ b).data = a.data ++ '/' :: b.data := by
    rw [String.data_append, String.data_append, List.append_assoc]
    rfl
  refine ⟨?_, hdata, ?_, ?_⟩
  · have hhead : ¬ b.data.head? = some '/' := by
      cases hbd : b.data with
      | nil => exact absurd hbd hbne
      | cons c cs =>
        simp only [List.head?_cons, Option.some.injEq]
        exact hbns c (by rw [hbd]; exact List.mem_cons_self c cs)
    have hor : ¬ (a = "" ∨ a.data.getLast? = some '/') := by
      intro hcon
      rcases hcon with hcon | hcon
      · exact ha1 hcon
      · exact ha2 hcon
    unfold osJoin
    rw [if_neg hhead, if_neg hor]
  · intro hcon
    have hnil := (data_eq_nil_iff (a ++ "/" ++ b)).mpr hcon
    rw [hdata] at hnil
    simp at hnil
  · rw [hdata]
    obtain ⟨c, hc1, hc2⟩ := getLast?_spec b.data hbne
    rw [show a.data ++ '/' :: b.data = (a.data ++ ['/']) ++ b.data by simp]
    rw [List.getLast?_append, hc1]
    simp only [Option.or_some, Option.some.injEq]
    exact hbns c hc2

theorem mk_data (s : String) : String.mk s.data = s := by
  cases s with
  | mk d => rfl

theorem joinComps_shape (comps : List String) : ∀ (p : String),
    ¬ p = "" → ¬ p.data.getLast? = some '/' →
    (∀ c ∈ comps, goodName c = true) →
    (joinComps p comps).data =
      p.data ++ comps.flatMap (fun n => '/' :: n.data) ∧
    ¬ joinComps p comps = "" ∧
    ¬ (joinComps p comps).data.getLast? = some '/' := by
  induction comps with
  | nil =>
    intro p hp1 hp2 hg
    exact ⟨by simp [joinComps], hp1, hp2⟩
  | cons c cs ih =>
    intro p hp1 hp2 hg
    have hgc : goodName c = true := hg c (List.mem_cons_self c cs)
    obtain ⟨hjoin, hdata, hne, hlast⟩ := osJoin_good hp1 hp2 hgc
    have hstep : joinComps p (c :: cs) = joinComps (p ++ "/" ++ c) cs := by
      unfold joinComps
      rw [List.foldl_cons, hjoin]
    obtain ⟨ih1, ih2, ih3⟩ := ih (p ++ "/" ++ c) hne hlast
      (fun x hx => hg x (List.mem_cons_of_mem c hx))
    refine ⟨?_, by rw [hstep]; exact ih2, by rw [hstep]; exact ih3⟩
    rw [hstep, ih1, hdata, List.flatMap_cons, List.append_assoc]

theorem splitSlash_flatMap (ns : List String) : ∀ (a : List Char) (f : String),
    (∀ n ∈ ns, goodName n = true) → goodName f = true →
    splitSlash (a ++ (ns.flatMap (fun n => '/' :: n.data) ++ '/' :: f.data)) =
      splitSlash a ++ (ns ++ [f]).map String.data := by
  induction ns with
  | nil =>
    intro a f _ hf
    rw [List.flatMap_nil, List.nil_append, splitSlash_append,
      splitSlash_no_slash f.data (goodName_spec hf).2]
    rfl
  | cons n ns ih =>
    intro a f hg hf
    have hn := goodName_spec (hg n (List.mem_cons_self n ns))
    rw [List.flatMap_cons, List.append_assoc, List.cons_append,
      splitSlash_append,
      ih n.data f (fun x hx => hg x (List.mem_cons_of_mem n hx)) hf,
      splitSlash_no_slash n.data hn.2]
    rfl

theorem intercalateSlash_map (comps : List String) (f : String) :
    intercalateSlash ((comps ++ [f]).map String.data) =
      (preJoin comps f).data := by
  induction comps with
  | nil => rfl
  | cons c cs ih =>
    rw [List.cons_append, List.map_cons]
    cases hm : (cs ++ [f]).map String.data with
    | nil => simp at hm
    | cons m ms =>
      rw [show intercalateSlash (c.data :: m :: ms) =
        c.data ++ '/' :: intercalateSlash (m :: ms) from rfl]
      rw [← hm, ih]
      show _ = (c ++ "/" ++ preJoin cs f).data
      rw [String.data_append, String.data_append, List.append_assoc]
      rfl

theorem preJoin_append (comps : List String) (name : String) (r : String) :
    preJoin (comps ++ [name]) r = preJoin comps (name ++ "/" ++ r) := by
  induction comps with
  | nil => rfl
  | cons c cs ih =>
    rw [List.cons_append]
    show c ++ "/" ++ preJoin (cs ++ [name]) r = c ++ "/" ++ _
    rw [ih]

/-- The heart of the recursive-listing proof: the relative path computed by
`os.path.relpath (os.path.join root f) p` for a walk root `root` reached
from `p` through components `comps` is exactly the component-joined
relative path. -/
theorem relpath_joinComps (p : String) (hp1 : ¬ p = "")
    (hp2 : ¬ p.data.getLast? = some '/') (comps : List String) (f : String)
    (hg : ∀ c ∈ comps, goodName c = true) (hf : goodName f = true) :
    relpath (osJoin (joinComps p comps) f) p = preJoin comps f := by
  obtain ⟨hdata, hne, hlast⟩ := joinComps_shape comps p hp1 hp2 hg
  obtain ⟨hjoin, hjdata, _, _⟩ := osJoin_good hne hlast hf
  rw [hjoin]
  have hsplit : splitSlash (joinComps p comps ++ "/" ++ f).data =
      splitSlash p.data ++ (comps ++ [f]).map String.data := by
    rw [hjdata, hdata, List.append_assoc]
    exact splitSlash_flatMap comps p.data f hg hf
  have hparts : relParts (joinComps p comps ++ "/" ++ f) p =
      (comps ++ [f]).map String.data := by
    unfold relParts
    rw [hsplit, cplLen_append, Nat.sub_self, List.replicate_zero,
      List.nil_append, List.drop_left]
  have hne2 : ¬ (comps ++ [f]).map String.data = [] := by simp
  unfold relpath
  rw [hparts, if_neg hne2, intercalateSlash_map, mk_data]

theorem collectT_node (top root : String) (fls : List String)
    (sbs : List (String × DirTree)) :
    collectT top root (DirTree.node fls sbs) =
      fls.map (fun f => relpath (osJoin root f) top) ++
        collectL top root sbs := rfl

theorem collectL_cons (top root name : String) (t : DirTree)
    (rest : List (String × DirTree)) :
    collectL top root ((name, t) :: rest) =
      collectT top (osJoin root name) t ++ collectL top root rest := by
  unfold collectL collectT
  rw [show walkL root ((name, t) :: rest) =
    walkT (osJoin root name) t ++ walkL root rest from rfl]
  rw [List.flatMap_append]

theorem goodTreeT_node {fls : List String} {sbs : List (String × DirTree)}
    (h : goodTreeT (DirTree.node fls sbs) = true) :
    fls.all goodName = true ∧ goodTreeL sbs = true := by
  rw [show goodTreeT (DirTree.node fls sbs) =
    (fls.all goodName && goodTreeL sbs) from rfl] at h
  exact Bool.and_eq_true_iff.mp h

theorem goodTreeL_cons {name : String} {t : DirTree}
    {rest : List (String × DirTree)}
    (h : goodTreeL ((name, t) :: rest) = true) :
    goodName name = true ∧ goodTreeT t = true ∧ goodTreeL rest = true := by
  rw [show goodTreeL ((name, t) :: rest) =
    (goodName name && goodTreeT t && goodTreeL rest) from rfl] at h
  rw [Bool.and_eq_true_iff, Bool.and_eq_true_iff] at h
  exact ⟨h.1.1, h.1.2, h.2⟩

/-- Induction over directory trees: prove a property of every tree from its
holding on each node given all subtrees. -/
theorem dirTree_ind (motive : DirTree → Prop)
    (h : ∀ fls sbs, (∀ x ∈ sbs, motive x.2) → motive (DirTree.node fls sbs)) :
    ∀ t, motive t
  | DirTree.node fls sbs =>
    h fls sbs (fun x hx => dirTree_ind motive h x.2)
termination_by t => sizeOf t
decreasing_by
  have hlt := List.sizeOf_lt_of_mem hx
  obtain ⟨a, b⟩ := x
  simp at hlt ⊢
  omega

theorem collectL_eq_of (p : String) (hp1 : ¬ p = "")
    (hp2 : ¬ p.data.getLast? = some '/') :
    ∀ (l : List (String × DirTree)),
      (∀ x ∈ l, ∀ comps, goodTreeT x.2 = true →
        (∀ c ∈ comps, goodName c = true) →
        collectT p (joinComps p comps) x.2 =
          (relFilesT x.2).map (preJoin comps)) →
      ∀ comps, goodTreeL l = true → (∀ c ∈ comps, goodName c = true) →
      collectL p (joinComps p comps) l =
        (relFilesL l).map (preJoin comps) := by
  intro l
  induction l with
  | nil => intro _ comps _ _; rfl
  | cons hd rest ih =>
    intro hIH comps hgl hgc
    obtain ⟨name, t⟩ := hd
    obtain ⟨hname, ht, hrest⟩ := goodTreeL_cons hgl
    rw [collectL_cons]
    rw [show relFilesL ((name, t) :: rest) =
      (relFilesT t).map (fun r => name ++ "/" ++ r) ++ relFilesL rest
      from rfl]
    rw [List.map_append]
    congr 1
    · have hjoin : osJoin (joinComps p comps) name =
          joinComps p (comps ++ [name]) := by
        unfold joinComps
        rw [List.foldl_append]
        rfl
      have hgood2 : ∀ c ∈ comps ++ [name], goodName c = true := by
        intro c hc
        rcases List.mem_append.mp hc with hc | hc
        · exact hgc c hc
        · rw [List.mem_singleton.mp hc]
          exact hname
      rw [hjoin,
        hIH (name, t) (List.mem_cons_self _ _) (comps ++ [name]) ht hgood2,
        List.map_map]
      refine List.map_congr_left ?_
      intro r _
      show preJoin (comps ++ [name]) r = preJoin comps (name ++ "/" ++ r)
      exact preJoin_append comps name r
    · exact ih (fun x hx => hIH x (List.mem_cons_of_mem _ hx)) comps hrest hgc

theorem collectT_eq (p : String) (hp1 : ¬ p = "")
    (hp2 : ¬ p.data.getLast? = some '/') :
    ∀ (t : DirTree) (comps : List String), goodTreeT t = true →
      (∀ c ∈ comps, goodName c = true) →
      collectT p (joinComps p comps) t =
        (relFilesT t).map (preJoin comps) := by
  intro t
  induction t using dirTree_ind with
  | h fls sbs ihAll =>
    intro comps hgt hgc
    obtain ⟨hfls, hsbs⟩ := goodTreeT_node hgt
    rw [collectT_node]
    rw [show relFilesT (DirTree.node fls sbs) = fls ++ relFilesL sbs from rfl]
    rw [List.map_append]
    congr 1
    · refine List.map_congr_left ?_
      intro f hf
      exact relpath_joinComps p hp1 hp2 comps f hgc
        (by
          rw [List.all_eq_true] at hfls
          exact hfls f hf)
    · exact collectL_eq_of p hp1 hp2 sbs ihAll comps hsbs hgc

/-- **C7.**  For a directory `p` (nonempty path without a trailing
separator) whose subtree has well-formed entry names,
`listDirectory(p, recursive=true)` returns exactly the relative paths of
the regular files of the subtree — one component per directory level,
joined with the separator — and no entry for any directory. -/
theorem listDirectory_recursive_files (p : String) (t : DirTree)
    (hp1 : ¬ p = "") (hp2 : ¬ p.data.getLast? = some '/')
    (ht : goodTreeT t = true) :
    list_directory (some t) p true = Except.ok (relFilesT t) := by
  unfold list_directory
  dsimp only
  rw [if_neg (by simp)]
  have h := collectT_eq p hp1 hp2 t [] ht (by intro c hc; simp at hc)
  rw [show joinComps p [] = p from rfl] at h
  unfold collectT at h
  rw [h]
  congr 1
  rw [show (preJoin [] : String → String) = id from rfl, List.map_id]

/-- Witness for C7: on the spec's example tree rooted at `p`, the recursive
listing is exactly `a.txt` and `sub/b.txt`, with no directory entries. -/
theorem listDirectory_recursive_files_witness :
    list_directory (some tWit) "p" true = Except.ok ["a.txt", "sub/b.txt"] := by
  have h := listDirectory_recursive_files "p" tWit (by decide) (by decide)
    (by decide)
  rw [h]
  rfl

end Darca
